import Mathlib

/-!
# go-pionoffswitch: the pump state controller of `main.go`

A shallow embedding of the controller (`pump` and its methods, the reconciliation pass
and the watchdog tick body of `newPump`) over an explicit state: the relay pin, the lock
file `pump.running.lock`, the cron marker `/etc/cron.d/pumpon` and the in-memory log.

Conventions.
* Every method runs atomically (the source serialises them with `p.Mutex`); the mutex
  itself is not part of the state.
* What the operating system answers to a call (the clock, whether a write or a remove
  succeeds) is an input of each operation, gathered in `Env`.
* Instants are integers of nanoseconds since the Unix epoch, durations integers of
  nanoseconds clamped to the `int64` range as `time.Time.Sub` does.
* `panic(err)` is the outcome `Outcome.fatal err`, returned together with the state the
  process leaves behind.
-/

namespace PumpSwitch

/-! ## Errors, results, outcomes -/

/-- Go `error` values that the controller can meet. -/
inductive Err where
  /-- the error recognised by `os.IsNotExist` -/
  | notExist
  /-- `strconv.ErrSyntax` -/
  | malformed
  /-- `strconv.ErrRange` -/
  | outOfRange
  /-- any other operating-system error, by number -/
  | other (code : Nat)
deriving DecidableEq, Repr

/-- A Go `(value, error)` pair in which exactly one side is meaningful. -/
inductive Res (α : Type) where
  | ok (v : α)
  | err (e : Err)
deriving DecidableEq, Repr

/-- How a call ends: it returns a value, or the process panics with an error. -/
inductive Outcome (α : Type) where
  | ret (v : α)
  | fatal (e : Err)
deriving DecidableEq, Repr

/-! ## The relay pin (`rpio.Pin`) -/

/-- Logic level of a pin: `rpio.Low = 0`, `rpio.High = 1`. -/
inductive Level where
  | Low
  | High
deriving DecidableEq, Repr

/-- Direction of a pin. -/
inductive Mode where
  | Input
  | Output
deriving DecidableEq, Repr

/-- The hardware state of the relay pin. -/
structure RpioPin where
  mode : Mode
  level : Level
deriving DecidableEq, Repr

/-- `Pin.Output()`: switch the pin to output mode. -/
def RpioPin.Output (p : RpioPin) : RpioPin := { p with mode := Mode.Output }

/-- `Pin.High()`: drive the pin high. -/
def RpioPin.High (p : RpioPin) : RpioPin := { p with level := Level.High }

/-- `Pin.Low()`: drive the pin low. -/
def RpioPin.Low (p : RpioPin) : RpioPin := { p with level := Level.Low }

/-- `Pin.Read()`: the current level. -/
def RpioPin.Read (p : RpioPin) : Level := p.level

/-! ## Files -/

/-- What a path holds: nothing, something that `ioutil.ReadFile` cannot read, or bytes. -/
inductive File where
  | absent
  | unreadable (e : Err)
  | data (bytes : List Char)
deriving DecidableEq, Repr

/-- How an `ioutil.WriteFile` call ends: success; failure at open (nothing touched);
failure after the file was created or truncated, `written` bytes having reached it. -/
inductive WriteOutcome where
  | ok
  | openFailed (e : Err)
  | writeFailed (written : Nat) (e : Err)
deriving DecidableEq, Repr

/-- How an `os.Remove` call on an existing path ends. -/
inductive RemoveOutcome where
  | ok
  | failed (e : Err)
deriving DecidableEq, Repr

/-- `ioutil.WriteFile(path, bytes, 0644)`: open with create and truncate, write, close. -/
def writeFile (_f : File) (bytes : List Char) : WriteOutcome → File × Option Err
  | WriteOutcome.ok => (File.data bytes, none)
  | WriteOutcome.openFailed e => (_f, some e)
  | WriteOutcome.writeFailed n e => (File.data (bytes.take n), some e)

/-- `os.Remove(path)`: removing a missing path is the not-exist error. -/
def removeFile (f : File) (r : RemoveOutcome) : File × Option Err :=
  match f with
  | File.absent => (File.absent, some Err.notExist)
  | _ =>
    match r with
    | RemoveOutcome.ok => (File.absent, none)
    | RemoveOutcome.failed e => (f, some e)

/-- `_, err := os.Stat(path); os.IsNotExist(err)`. -/
def statIsNotExist (f : File) : Bool :=
  match f with
  | File.absent => true
  | _ => false

/-! ## Time -/

/-- `time.Second` in nanoseconds. -/
def Second : Int := 1000000000

/-- Largest `time.Duration` (`1<<63 - 1`). -/
def maxDuration : Int := 9223372036854775807

/-- Smallest `time.Duration` (`-1 << 63`). -/
def minDuration : Int := -9223372036854775808

/-- Seconds from year 1 to 1970 (`unixToInternal` of package `time`). -/
def unixToInternal : Int := 62135596800

/-- Two-complement wrap of an integer into `int64`. -/
def wrapInt64 (x : Int) : Int := (x + 9223372036854775808) % 18446744073709551616 - 9223372036854775808

/-- `Time.Unix()`: whole seconds since the epoch (rounded down) of an instant. -/
def unixSeconds (now : Int) : Int := now / Second

/-- `time.Unix(sec, 0)` as an instant; the internal second count `sec + unixToInternal`
is an `int64` addition. -/
def timeUnix (sec : Int) : Int := (wrapInt64 (sec + unixToInternal) - unixToInternal) * Second

/-- `t.Sub(u)`: the difference, clamped to the range of `time.Duration`. -/
def timeSub (t u : Int) : Int :=
  if t - u > maxDuration then maxDuration
  else if t - u < minDuration then minDuration
  else t - u

/-- The watchdog ticker period, `10 * time.Second`. -/
def pollInterval : Int := 10 * Second

/-! ## Decimal text of `int64` (`fmt.Sprintf("%d", _)`, `strconv.ParseInt(_, 10, 64)`) -/

/-- The character of a decimal digit. -/
def digitChar : Nat → Char
  | 0 => '0'
  | 1 => '1'
  | 2 => '2'
  | 3 => '3'
  | 4 => '4'
  | 5 => '5'
  | 6 => '6'
  | 7 => '7'
  | 8 => '8'
  | _ => '9'

/-- Decimal digits of `n`, most significant first, in front of `acc`; `fuel` bounds the
number of digits. -/
def natDigits : Nat → Nat → List Char → List Char
  | 0, _, acc => acc
  | fuel + 1, n, acc =>
    if n / 10 = 0 then digitChar (n % 10) :: acc
    else natDigits fuel (n / 10) (digitChar (n % 10) :: acc)

/-- Decimal text of a natural number (`"0"` for zero). -/
def formatNat (n : Nat) : List Char := natDigits (n + 1) n []

/-- `fmt.Sprintf("%d", x)`. -/
def formatInt (x : Int) : List Char :=
  if x < 0 then '-' :: formatNat (-x).toNat else formatNat x.toNat

/-- `cutoff` of `strconv.ParseUint` in base 10: `maxUint64/10 + 1`. -/
def uintCutoff : Nat := 1844674407370955162

/-- `maxVal` of `strconv.ParseUint` for 64 bits. -/
def maxUint64 : Nat := 18446744073709551615

/-- The digit loop of `strconv.ParseUint(s, 10, 64)`: a byte that is no decimal digit is
a syntax error (letters stand for digits `>= 10`, the base); an overflow of `n*10` or of
`n*10 + d` ends the loop at once with a range error. -/
def parseUintLoop : List Char → Nat → Res Nat
  | [], n => Res.ok n
  | c :: cs, n =>
    if '0' ≤ c ∧ c ≤ '9' then
      if n ≥ uintCutoff then Res.err Err.outOfRange
      else if n * 10 + (c.toNat - '0'.toNat) > maxUint64 then Res.err Err.outOfRange
      else parseUintLoop cs (n * 10 + (c.toNat - '0'.toNat))
    else Res.err Err.malformed

/-- `strconv.ParseUint(s, 10, 64)`. -/
def ParseUint (s : List Char) : Res Nat :=
  match s with
  | [] => Res.err Err.malformed
  | _ => parseUintLoop s 0

/-- The range check of `strconv.ParseInt` on the unsigned value `un`
(`cutoff = 1 << 63`). -/
def signedOfUnsigned (neg : Bool) (un : Nat) : Res Int :=
  if !neg && un ≥ 9223372036854775808 then Res.err Err.outOfRange
  else if neg && un > 9223372036854775808 then Res.err Err.outOfRange
  else if neg then Res.ok (-(un : Int)) else Res.ok (un : Int)

/-- `strconv.ParseInt(s, 10, 64)`: an optional sign, then `ParseUint`; every error of
`ParseUint` ends in an error (a range error after the value was set to `maxVal`). -/
def ParseInt (s : List Char) : Res Int :=
  match s with
  | [] => Res.err Err.malformed
  | c :: cs =>
    let neg := c == '-'
    let body := if c == '+' ∨ c == '-' then cs else c :: cs
    match ParseUint body with
    | Res.err e => Res.err e
    | Res.ok un => signedOfUnsigned neg un

/-- The number read off a list of decimal digits after the number `a`. -/
def decimalValue (cs : List Char) (a : Nat) : Nat :=
  cs.foldl (fun n c => n * 10 + (c.toNat - '0'.toNat)) a

/-! ## The controller state and its environment -/

/-- One entry of `p.log`: `fmt.Sprintf("%s: %s", txt, time.Now())`, kept as its two
arguments. -/
structure LogEntry where
  txt : String
  time : Int
deriving DecidableEq, Repr

/-- The state the controller works on: the fields of `pump` (pin, listen address, log)
and the two files named by `pumpLockFile` and `pumpOnCrondFile`. -/
structure World where
  Pin : RpioPin
  listen : String
  log : List LogEntry
  pumpLockFile : File
  pumpOnCrondFile : File
deriving DecidableEq, Repr

/-- What the operating system answers during one call: the clock reading and the
outcome of the write and of the remove on each of the two files. -/
structure Env where
  now : Int
  writeLock : WriteOutcome
  removeLock : RemoveOutcome
  writeCron : WriteOutcome
  removeCron : RemoveOutcome
deriving DecidableEq, Repr

/-- The text `fmt.Sprintf(pumpOnCrond, intervals, p.listen)`. -/
def pumpOnCrond (intervals listen : String) : List Char :=
  (intervals ++ " * * * root curl -X POST http://localhost" ++ listen
    ++ "/ -d \x27poweron=true\x27\n").toList

/-- `pump.SaveLockFile`. -/
def SaveLockFile (p : World) (unixts : Int) (w : WriteOutcome) : World × Option Err :=
  let r := writeFile p.pumpLockFile (formatInt unixts) w
  ({ p with pumpLockFile := r.1 }, r.2)

/-- `pump.ClearLockFile`. -/
def ClearLockFile (p : World) (r : RemoveOutcome) : World × Option Err :=
  let x := removeFile p.pumpLockFile r
  ({ p with pumpLockFile := x.1 }, x.2)

/-- `pump.AddLog`. -/
def AddLog (p : World) (txt : String) (now : Int) : World :=
  let log1 := if p.log.length > 100 then p.log.drop 1 else p.log
  { p with log := log1 ++ [{ txt := txt, time := now }] }

/-- `pump.GetLog`, before the entries are joined by newlines. -/
def GetLog (p : World) : List LogEntry := p.log

/-- `pump.IsOn`. -/
def IsOn (p : World) : Bool := p.Pin.Read == Level.High

/-- `pump.SetTo`. -/
def SetTo (p : World) (pstate : String) (env : Env) : World × Option Err :=
  let p0 := { p with Pin := p.Pin.Output }
  if pstate = "on" then
    match SaveLockFile p0 (unixSeconds env.now) env.writeLock with
    | (p1, some err) => (p1, some err)
    | (p1, none) =>
      let p2 := { p1 with Pin := p1.Pin.High }
      (AddLog p2 "pump start" env.now, none)
  else if pstate = "off" then
    let p1 := { p0 with Pin := p0.Pin.Low }
    let p2 := (ClearLockFile p1 env.removeLock).1
    (AddLog p2 "pump stop" env.now, none)
  else (p0, none)

/-- `pump.PowerOn`. -/
def PowerOn (p : World) (env : Env) : World × Option Err := SetTo p "on" env

/-- `pump.PowerOff`. -/
def PowerOff (p : World) (env : Env) : World × Option Err := SetTo p "off" env

/-- `pump.EnablePowerOnCron`. -/
def EnablePowerOnCron (p : World) (intervals : String) (env : Env) : World × Option Err :=
  if statIsNotExist p.pumpOnCrondFile then
    let r := writeFile p.pumpOnCrondFile (pumpOnCrond intervals p.listen) env.writeCron
    ({ p with pumpOnCrondFile := r.1 }, r.2)
  else (p, none)

/-- `pump.DisablePowerOnCron`. -/
def DisablePowerOnCron (p : World) (env : Env) : World × Option Err :=
  let r := removeFile p.pumpOnCrondFile env.removeCron
  ({ p with pumpOnCrondFile := r.1 }, r.2)

/-- `pump.PowerOnCronIsDisabled`. -/
def PowerOnCronIsDisabled (p : World) : Bool := statIsNotExist p.pumpOnCrondFile

/-- `pump.PowerOnDuration`: `0` without a lock file; on a read error power off, disable
the cron marker and panic; on a parse error power off and panic; else the time since
the recorded second. In both panic branches the mutex was unlocked by hand before
`PowerOff`, so the deferred `Unlock` that runs during the panic meets an unlocked mutex:
either way the process ends, which is the outcome `fatal`. -/
def PowerOnDuration (p : World) (env : Env) : World × Outcome Int :=
  match p.pumpLockFile with
  | File.absent => (p, Outcome.ret 0)
  | File.unreadable err =>
    let p1 := (PowerOff p env).1
    let p2 := (DisablePowerOnCron p1 env).1
    (p2, Outcome.fatal err)
  | File.data content =>
    match ParseInt content with
    | Res.err err => ((PowerOff p env).1, Outcome.fatal err)
    | Res.ok i => (p, Outcome.ret (timeSub env.now (timeUnix i)))

/-- The reconciliation pass of `newPump` (all of it but the start of the watchdog
goroutine): the controller is built on the pin and the files found at process start. -/
def newPump (pin : RpioPin) (httpPort : String) (lock cron : File) (env : Env) :
    World × Outcome Unit :=
  let p : World :=
    { Pin := pin, listen := httpPort, log := [], pumpLockFile := lock, pumpOnCrondFile := cron }
  if IsOn p then
    match PowerOnDuration p env with
    | (p1, Outcome.fatal err) => (p1, Outcome.fatal err)
    | (p1, Outcome.ret d) =>
      if d ≤ 0 * Second then ((PowerOff p1 env).1, Outcome.ret ()) else (p1, Outcome.ret ())
  else (p, Outcome.ret ())

/-- The body of the watchdog loop of `newPump`, run at each tick of the ticker. -/
def watchdogTick (pumpMaxPowerOnDuration : Int) (p : World) (env : Env) :
    World × Outcome Unit :=
  if !IsOn p then (p, Outcome.ret ())
  else
    match PowerOnDuration p env with
    | (p1, Outcome.fatal err) => (p1, Outcome.fatal err)
    | (p1, Outcome.ret d) =>
      if d > pumpMaxPowerOnDuration then ((PowerOff p1 env).1, Outcome.ret ())
      else (p1, Outcome.ret ())

/-! ## Runs of the controller -/

/-- Smallest `int64`. -/
def minInt64 : Int := -9223372036854775808

/-- Largest `int64`. -/
def maxInt64 : Int := 9223372036854775807

/-- A clock reading that a Go `time.Time` can hold: its count of seconds is an `int64`
both since the Unix epoch and since year 1. -/
def validClock (now : Int) : Prop :=
  minInt64 ≤ unixSeconds now ∧ unixSeconds now + unixToInternal ≤ maxInt64

instance (now : Int) : Decidable (validClock now) :=
  inferInstanceAs (Decidable (_ ∧ _))

/-- The consistency predicate of pin and lock file at time `now`: a HIGH pin comes with
a lock file that holds a parsable timestamp not after `now`, a LOW pin with no lock
file. -/
def lockInv (now : Int) (p : World) : Bool :=
  match p.Pin.Read with
  | Level.High =>
    match p.pumpLockFile with
    | File.data content =>
      match ParseInt content with
      | Res.ok ts => decide (ts * Second ≤ now)
      | Res.err _ => false
    | _ => false
  | Level.Low =>
    match p.pumpLockFile with
    | File.absent => true
    | _ => false

/-- A call of a client of the controller. -/
inductive Call where
  | powerOn
  | powerOff
deriving DecidableEq, Repr

/-- The state after one client call made under `c.2`. -/
def applyCall (p : World) (c : Call × Env) : World :=
  match c.1 with
  | Call.powerOn => (PowerOn p c.2).1
  | Call.powerOff => (PowerOff p c.2).1

/-- The state after a sequence of client calls. -/
def runCalls (p : World) (cs : List (Call × Env)) : World := cs.foldl applyCall p

/-- The state after a sequence of `AddLog` calls, each given its text and clock reading. -/
def addLogs (p : World) (entries : List (String × Int)) : World :=
  entries.foldl (fun q e => AddLog q e.1 e.2) p

/-- What happens to a running process when no client calls `PowerOff`: a tick of the
watchdog, or one more `PowerOn` call. -/
inductive Event where
  | tick (env : Env)
  | powerOn (env : Env)
deriving DecidableEq, Repr

/-- One event on a process, given as its state and whether it is still alive; a panic
ends the process, which then takes no further step. -/
def stepEvent (pumpMaxPowerOnDuration : Int) (st : World × Bool) (e : Event) : World × Bool :=
  if st.2 then
    match e with
    | Event.tick env =>
      match watchdogTick pumpMaxPowerOnDuration st.1 env with
      | (p, Outcome.ret _) => (p, true)
      | (p, Outcome.fatal _) => (p, false)
    | Event.powerOn env => ((PowerOn st.1 env).1, true)
  else st

/-- The process after a sequence of events. -/
def runEvents (pumpMaxPowerOnDuration : Int) (st : World × Bool) (es : List Event) :
    World × Bool :=
  es.foldl (stepEvent pumpMaxPowerOnDuration) st

/-- The environment of the `k`-th tick of a ticker whose first tick is at `t0`: the
clock reads `t0 + k * pollInterval`, the file outcomes are those of `os k`. -/
def tickEnv (t0 : Int) (os : Nat → Env) (k : Nat) : Env :=
  { os k with now := t0 + (k : Int) * pollInterval }

/-- The first `n` ticks of the ticker. -/
def tickEvents (t0 : Int) (os : Nat → Env) (n : Nat) : List Event :=
  (List.range n).map (fun k => Event.tick (tickEnv t0 os k))

/-- The number of ticks that have fired up to the instant `t`, the first being at `t0`. -/
def ticksBy (t0 t : Int) : Nat :=
  if t < t0 then 0 else ((t - t0) / pollInterval).toNat + 1

/-! ## Sample states -/

/-- An environment at clock reading `now` with the given outcomes on the lock file. -/
def envAt (now : Int) (w : WriteOutcome) (r : RemoveOutcome) : Env :=
  { now := now, writeLock := w, removeLock := r, writeCron := WriteOutcome.ok,
    removeCron := RemoveOutcome.ok }

/-- A controller at rest: pin LOW, no lock file, no cron marker, empty log. -/
def idleWorld : World :=
  { Pin := { mode := Mode.Output, level := Level.Low }, listen := ":8111", log := [],
    pumpLockFile := File.absent, pumpOnCrondFile := File.absent }

/-- A running pump: pin HIGH, the lock file holding `content`, the cron marker `cron`. -/
def runningWorld (content : List Char) (cron : File) : World :=
  { Pin := { mode := Mode.Output, level := Level.High }, listen := ":8111", log := [],
    pumpLockFile := File.data content, pumpOnCrondFile := cron }


/-! ## Decimal text: the round trip -/

theorem digitChar_isDigit (d : Nat) (h : d < 10) :
    '0' ≤ digitChar d ∧ digitChar d ≤ '9' ∧ (digitChar d).toNat - '0'.toNat = d := by
  interval_cases d <;> decide

theorem decimalValue_append (xs ys : List Char) (a : Nat) :
    decimalValue (xs ++ ys) a = decimalValue ys (decimalValue xs a) := by
  simp [decimalValue, List.foldl_append]

theorem le_decimalValue (cs : List Char) (a : Nat) : a ≤ decimalValue cs a := by
  induction cs generalizing a with
  | nil => simp [decimalValue]
  | cons c cs ih =>
    have h := ih (a * 10 + (c.toNat - '0'.toNat))
    simp only [decimalValue, List.foldl_cons] at h ⊢
    omega

theorem natDigits_spec (fuel : Nat) : ∀ (n : Nat) (acc : List Char), n < fuel →
    ∃ ds : List Char, natDigits fuel n acc = ds ++ acc ∧ ds ≠ [] ∧
      (∀ c ∈ ds, '0' ≤ c ∧ c ≤ '9') ∧
      ∀ a, decimalValue ds a = a * 10 ^ ds.length + n := by
  induction fuel with
  | zero => intro n acc h; omega
  | succ fuel ih =>
    intro n acc hn
    have hd := digitChar_isDigit (n % 10) (Nat.mod_lt n (by norm_num))
    by_cases h0 : n / 10 = 0
    · refine ⟨[digitChar (n % 10)], by simp [natDigits, h0], by simp, ?_, ?_⟩
      · intro c hc
        simp only [List.mem_singleton] at hc
        subst hc
        exact ⟨hd.1, hd.2.1⟩
      · intro a
        simp only [decimalValue, List.foldl_cons, List.foldl_nil, List.length_singleton, pow_one]
        rw [hd.2.2]
        omega
    · obtain ⟨ds, hds, _, hdig, hval⟩ := ih (n / 10) (digitChar (n % 10) :: acc) (by omega)
      refine ⟨ds ++ [digitChar (n % 10)], by simp [natDigits, h0, hds], by simp, ?_, ?_⟩
      · intro c hc
        rcases List.mem_append.mp hc with hc | hc
        · exact hdig c hc
        · simp only [List.mem_singleton] at hc
          subst hc
          exact ⟨hd.1, hd.2.1⟩
      · intro a
        rw [decimalValue_append, hval a]
        simp only [decimalValue, List.foldl_cons, List.foldl_nil, List.length_append,
          List.length_singleton, pow_succ]
        rw [hd.2.2]
        have := Nat.div_add_mod n 10
        nlinarith [this]

theorem parseUintLoop_digits (ds : List Char) : ∀ a : Nat,
    (∀ c ∈ ds, '0' ≤ c ∧ c ≤ '9') → decimalValue ds a ≤ maxUint64 →
    parseUintLoop ds a = Res.ok (decimalValue ds a) := by
  induction ds with
  | nil => intro a _ _; simp [parseUintLoop, decimalValue]
  | cons c cs ih =>
    intro a hdig hle
    have hc := hdig c (List.mem_cons_self c cs)
    have hstep : decimalValue (c :: cs) a = decimalValue cs (a * 10 + (c.toNat - '0'.toNat)) := by
      simp [decimalValue]
    rw [hstep] at hle ⊢
    have hmono := le_decimalValue cs (a * 10 + (c.toNat - '0'.toNat))
    have h1 : ¬ a ≥ uintCutoff := by
      simp only [maxUint64] at hle
      simp only [uintCutoff]
      omega
    have h2 : ¬ a * 10 + (c.toNat - '0'.toNat) > maxUint64 := by omega
    simp only [parseUintLoop, hc, and_self, if_true, h1, h2, if_false]
    exact ih _ (fun x hx => hdig x (List.mem_cons_of_mem c hx)) hle

theorem formatNat_spec (n : Nat) :
    ∃ (c : Char) (cs : List Char), formatNat n = c :: cs ∧ ('0' ≤ c ∧ c ≤ '9') ∧
      (n ≤ maxUint64 → parseUintLoop (c :: cs) 0 = Res.ok n) := by
  obtain ⟨ds, hds, hne, hdig, hval⟩ := natDigits_spec (n + 1) n [] (by omega)
  rw [List.append_nil] at hds
  cases ds with
  | nil => exact absurd rfl hne
  | cons c cs =>
    refine ⟨c, cs, hds, hdig c (List.mem_cons_self c cs), ?_⟩
    intro hle
    have hv := hval 0
    simp only [zero_mul, zero_add] at hv
    rw [parseUintLoop_digits (c :: cs) 0 hdig (by rw [hv]; exact hle), hv]

theorem ParseInt_formatInt (x : Int) (hlo : minInt64 ≤ x) (hhi : x ≤ maxInt64) :
    ParseInt (formatInt x) = Res.ok x := by
  simp only [minInt64, maxInt64] at hlo hhi
  by_cases hx : x < 0
  · obtain ⟨c, cs, hfmt, _, hparse⟩ := formatNat_spec (-x).toNat
    have hle : (-x).toNat ≤ maxUint64 := by simp only [maxUint64]; omega
    have hp := hparse hle
    have hbig : ¬ (-x).toNat > 9223372036854775808 := by omega
    simp [formatInt, hx, ParseInt, hfmt, ParseUint, hp, signedOfUnsigned, hbig]
    omega
  · obtain ⟨c, cs, hfmt, hdig, hparse⟩ := formatNat_spec x.toNat
    have hle : x.toNat ≤ maxUint64 := by simp only [maxUint64]; omega
    have hp := hparse hle
    have hplus : c ≠ '+' := by
      intro h; subst h; exact absurd hdig.1 (by decide)
    have hminus : c ≠ '-' := by
      intro h; subst h; exact absurd hdig.1 (by decide)
    have hsmall : ¬ x.toNat ≥ 9223372036854775808 := by omega
    simp [formatInt, hx, ParseInt, hfmt, ParseUint, hp, signedOfUnsigned, hplus, hminus, hsmall]
    omega


/-! ## Time -/

theorem timeUnix_eq (sec : Int) (hlo : minInt64 ≤ sec) (hhi : sec + unixToInternal ≤ maxInt64) :
    timeUnix sec = sec * Second := by
  simp only [minInt64, maxInt64, unixToInternal] at hlo hhi
  have hw : wrapInt64 (sec + unixToInternal) = sec + unixToInternal := by
    simp only [wrapInt64, unixToInternal]
    omega
  rw [timeUnix, hw]
  ring

theorem timeSub_eq (t u : Int) (hlo : minDuration ≤ t - u) (hhi : t - u ≤ maxDuration) :
    timeSub t u = t - u := by
  simp only [timeSub]
  split_ifs <;> omega

theorem timeSub_nonneg (t u : Int) (h : u ≤ t) : 0 ≤ timeSub t u := by
  simp only [timeSub, maxDuration, minDuration]
  split_ifs <;> omega

theorem le_of_timeSub_le (t u m : Int) (hm0 : 0 ≤ m) (hm1 : m < maxDuration)
    (h : timeSub t u ≤ m) : t - u ≤ m := by
  simp only [timeSub, maxDuration, minDuration] at h hm1
  split_ifs at h <;> omega

theorem unixSeconds_mul_le (now : Int) : unixSeconds now * Second ≤ now := by
  simp only [unixSeconds, Second]
  omega

/-! ## The operations, step by step -/

theorem PowerOff_eq (p : World) (env : Env) :
    PowerOff p env =
      (AddLog { p with Pin := { mode := Mode.Output, level := Level.Low },
                       pumpLockFile := (removeFile p.pumpLockFile env.removeLock).1 }
        "pump stop" env.now, none) := by
  simp [PowerOff, SetTo, ClearLockFile, RpioPin.Output, RpioPin.Low]

theorem PowerOn_eq_ok (p : World) (env : Env) (h : env.writeLock = WriteOutcome.ok) :
    PowerOn p env =
      (AddLog { p with Pin := { mode := Mode.Output, level := Level.High },
                       pumpLockFile := File.data (formatInt (unixSeconds env.now)) }
        "pump start" env.now, none) := by
  simp [PowerOn, SetTo, SaveLockFile, writeFile, h, RpioPin.Output, RpioPin.High]

theorem PowerOn_eq_openFailed (p : World) (env : Env) (e : Err)
    (h : env.writeLock = WriteOutcome.openFailed e) :
    PowerOn p env = ({ p with Pin := { mode := Mode.Output, level := p.Pin.level } }, some e) := by
  simp [PowerOn, SetTo, SaveLockFile, writeFile, h, RpioPin.Output]

theorem PowerOn_eq_writeFailed (p : World) (env : Env) (n : Nat) (e : Err)
    (h : env.writeLock = WriteOutcome.writeFailed n e) :
    PowerOn p env =
      ({ p with Pin := { mode := Mode.Output, level := p.Pin.level },
                pumpLockFile := File.data ((formatInt (unixSeconds env.now)).take n) }, some e) := by
  simp [PowerOn, SetTo, SaveLockFile, writeFile, h, RpioPin.Output]

theorem removeFile_ok (f : File) : (removeFile f RemoveOutcome.ok).1 = File.absent := by
  cases f <;> rfl

theorem removeFile_absent (r : RemoveOutcome) : removeFile File.absent r = (File.absent, some Err.notExist) := rfl

theorem PowerOnDuration_parsed (p : World) (env : Env) (content : List Char) (ts : Int)
    (hl : p.pumpLockFile = File.data content) (hp : ParseInt content = Res.ok ts) :
    PowerOnDuration p env = (p, Outcome.ret (timeSub env.now (timeUnix ts))) := by
  simp [PowerOnDuration, hl, hp]

theorem lockInv_high (now : Int) (p : World) (hpin : p.Pin.level = Level.High) :
    lockInv now p = true ↔
      ∃ content ts, p.pumpLockFile = File.data content ∧ ParseInt content = Res.ok ts ∧
        ts * Second ≤ now := by
  simp only [lockInv, RpioPin.Read, hpin]
  constructor
  · intro h
    split at h
    · rename_i content hc
      split at h
      · rename_i ts hts
        exact ⟨content, ts, hc, hts, by simpa using h⟩
      · exact absurd h (by simp)
    · exact absurd h (by simp)
  · rintro ⟨content, ts, hc, hts, hle⟩
    simp [hc, hts, hle]

theorem lockInv_low (now : Int) (p : World) (hpin : p.Pin.level = Level.Low) :
    lockInv now p = true ↔ p.pumpLockFile = File.absent := by
  simp only [lockInv, RpioPin.Read, hpin]
  cases p.pumpLockFile <;> simp

theorem lockInv_mono (now later : Int) (p : World) (h : lockInv now p = true)
    (hle : now ≤ later) : lockInv later p = true := by
  cases hpin : p.Pin.level with
  | Low => rw [lockInv_low _ _ hpin] at h ⊢; exact h
  | High =>
    rw [lockInv_high _ _ hpin] at h ⊢
    obtain ⟨content, ts, hc, hts, hts2⟩ := h
    exact ⟨content, ts, hc, hts, le_trans hts2 hle⟩


/-! ## C1: consistency of pin and lock file -/

/-- C1, as stated, fails: from a running pump whose lock file holds second 100, at
second 200, a `PowerOff` whose `os.Remove` fails leaves the pin LOW with the lock file
still there, so the predicate holds before the call and not after it. -/
theorem lockInv_broken_by_failed_remove :
    lockInv (200 * Second) (runningWorld "100".toList File.absent) = true ∧
    lockInv (200 * Second)
      (PowerOff (runningWorld "100".toList File.absent)
        (envAt (200 * Second) WriteOutcome.ok (RemoveOutcome.failed (Err.other 13)))).1
      = false := by
  decide

/-- C1, amended: from a state that satisfies the predicate at the time of the call, the
predicate holds at every later time after `PowerOn` when the lock-file write succeeds or
fails at open, and after `PowerOff` and after a watchdog tick when the lock-file remove
succeeds. -/
theorem lockInv_preserved (m : Int) (p : World) (env : Env) (later : Int)
    (hinv : lockInv env.now p = true) (hclock : validClock env.now)
    (hlater : env.now ≤ later) :
    ((env.writeLock = WriteOutcome.ok ∨ ∃ e, env.writeLock = WriteOutcome.openFailed e) →
      lockInv later (PowerOn p env).1 = true) ∧
    (env.removeLock = RemoveOutcome.ok → lockInv later (PowerOff p env).1 = true) ∧
    (env.removeLock = RemoveOutcome.ok → lockInv later (watchdogTick m p env).1 = true) := by
  have hoff : env.removeLock = RemoveOutcome.ok → lockInv later (PowerOff p env).1 = true := by
    intro hr
    rw [PowerOff_eq, lockInv_low _ _ (by simp [AddLog])]
    simp [AddLog, hr, removeFile_ok]
  refine ⟨?_, hoff, ?_⟩
  · rintro (hw | ⟨e, hw⟩)
    · rw [PowerOn_eq_ok p env hw, lockInv_high _ _ (by simp [AddLog])]
      refine ⟨formatInt (unixSeconds env.now), unixSeconds env.now, by simp [AddLog], ?_, ?_⟩
      · apply ParseInt_formatInt _ hclock.1
        have := hclock.2
        simp only [unixToInternal] at this
        omega
      · exact le_trans (unixSeconds_mul_le env.now) hlater
    · rw [PowerOn_eq_openFailed p env e hw]
      have hmono := lockInv_mono _ _ _ hinv hlater
      cases hpin : p.Pin.level with
      | Low =>
        rw [lockInv_low _ _ hpin] at hmono
        rw [lockInv_low _ _ (by simp [hpin])]
        exact hmono
      | High =>
        rw [lockInv_high _ _ hpin] at hmono
        rw [lockInv_high _ _ (by simp [hpin])]
        exact hmono
  · intro hr
    cases hpin : p.Pin.level with
    | Low =>
      have : watchdogTick m p env = (p, Outcome.ret ()) := by
        simp [watchdogTick, IsOn, RpioPin.Read, hpin]
      rw [this]
      exact lockInv_mono _ _ _ hinv hlater
    | High =>
      obtain ⟨content, ts, hc, hts, _⟩ := (lockInv_high _ _ hpin).mp hinv
      have hd := PowerOnDuration_parsed p env content ts hc hts
      by_cases hgt : timeSub env.now (timeUnix ts) > m
      · have : watchdogTick m p env = ((PowerOff p env).1, Outcome.ret ()) := by
          simp [watchdogTick, IsOn, RpioPin.Read, hpin, hd, hgt]
        rw [this]
        exact hoff hr
      · have : watchdogTick m p env = (p, Outcome.ret ()) := by
          simp [watchdogTick, IsOn, RpioPin.Read, hpin, hd, hgt]
        rw [this]
        exact lockInv_mono _ _ _ hinv hlater

/-- Witness of C1 (amended): a running pump started at second 100, called at second 200
and looked at again at second 300. -/
theorem lockInv_preserved_witness :
    lockInv (200 * Second) (runningWorld "100".toList File.absent) = true ∧
    validClock (200 * Second) ∧ 200 * Second ≤ 300 * Second ∧
    lockInv (300 * Second)
      (PowerOn (runningWorld "100".toList File.absent)
        (envAt (200 * Second) WriteOutcome.ok RemoveOutcome.ok)).1 = true ∧
    lockInv (300 * Second)
      (PowerOff (runningWorld "100".toList File.absent)
        (envAt (200 * Second) WriteOutcome.ok RemoveOutcome.ok)).1 = true ∧
    lockInv (300 * Second)
      (watchdogTick (50 * Second) (runningWorld "100".toList File.absent)
        (envAt (200 * Second) WriteOutcome.ok RemoveOutcome.ok)).1 = true :=
  have h := lockInv_preserved (50 * Second) (runningWorld "100".toList File.absent)
    (envAt (200 * Second) WriteOutcome.ok RemoveOutcome.ok) (300 * Second)
    (by decide) (by decide) (by decide)
  ⟨by decide, by decide, by decide, h.1 (Or.inl rfl), h.2.1 rfl, h.2.2 rfl⟩

/-! ## C2: sequences of PowerOn and PowerOff -/

theorem runCalls_snoc (p : World) (cs : List (Call × Env)) (c : Call × Env) :
    runCalls p (cs ++ [c]) = applyCall (runCalls p cs) c := by
  simp [runCalls, List.foldl_append]

/-- C2, as stated, fails: on a pump at rest a single `PowerOn` whose lock-file write
fails is the last call of its sequence, and `IsOn` is false after it. -/
theorem IsOn_false_after_failed_PowerOn :
    IsOn (runCalls idleWorld
      [(Call.powerOn,
        envAt (200 * Second) (WriteOutcome.openFailed (Err.other 30)) RemoveOutcome.ok)])
      = false := by
  decide

/-- C2, amended: after a non-empty sequence of calls whose last call, when it is a
`PowerOn`, has a succeeding lock-file write, `IsOn` is true exactly when the last call
was `PowerOn`; two `PowerOn` calls with succeeding writes leave the pin HIGH and the
lock file holding the second of the later call; two `PowerOff` calls leave the pin LOW,
and no lock file when there was none or one of the two removes succeeds. -/
theorem runCalls_last_call (p : World) (cs : List (Call × Env)) (c : Call) (env e1 e2 : Env)
    (hlast : c = Call.powerOn → env.writeLock = WriteOutcome.ok) :
    IsOn (runCalls p (cs ++ [(c, env)])) = decide (c = Call.powerOn) ∧
    (e1.writeLock = WriteOutcome.ok → e2.writeLock = WriteOutcome.ok →
      IsOn (runCalls p [(Call.powerOn, e1), (Call.powerOn, e2)]) = true ∧
      (runCalls p [(Call.powerOn, e1), (Call.powerOn, e2)]).pumpLockFile
        = File.data (formatInt (unixSeconds e2.now))) ∧
    (IsOn (runCalls p [(Call.powerOff, e1), (Call.powerOff, e2)]) = false ∧
      (p.pumpLockFile = File.absent ∨ e1.removeLock = RemoveOutcome.ok ∨
          e2.removeLock = RemoveOutcome.ok →
        (runCalls p [(Call.powerOff, e1), (Call.powerOff, e2)]).pumpLockFile = File.absent)) := by
  refine ⟨?_, ?_, ?_, ?_⟩
  · rw [runCalls_snoc]
    cases c with
    | powerOn =>
      simp [applyCall, PowerOn_eq_ok _ env (hlast rfl), IsOn, AddLog, RpioPin.Read]
    | powerOff =>
      simp [applyCall, PowerOff_eq, IsOn, AddLog, RpioPin.Read]
  · intro h1 h2
    simp [runCalls, applyCall, PowerOn_eq_ok _ e2 h2, IsOn, AddLog, RpioPin.Read]
  · simp [runCalls, applyCall, PowerOff_eq, IsOn, AddLog, RpioPin.Read]
  · intro h
    simp only [runCalls, List.foldl_cons, List.foldl_nil, applyCall, PowerOff_eq, AddLog]
    rcases h with h | h | h
    · simp [h, removeFile_absent]
    · simp [h, removeFile_ok, removeFile_absent]
    · simp [h, removeFile_ok]

/-- Witness of C2 (amended): off, on, then on again at a later second. -/
theorem runCalls_last_call_witness :
    IsOn (runCalls idleWorld
      ([(Call.powerOff, envAt (5 * Second) WriteOutcome.ok RemoveOutcome.ok)] ++
        [(Call.powerOn, envAt (7 * Second) WriteOutcome.ok RemoveOutcome.ok)]))
      = decide (Call.powerOn = Call.powerOn) ∧
    (runCalls idleWorld
      [(Call.powerOn, envAt (7 * Second) WriteOutcome.ok RemoveOutcome.ok),
       (Call.powerOn, envAt (9 * Second) WriteOutcome.ok RemoveOutcome.ok)]).pumpLockFile
      = File.data (formatInt (unixSeconds (9 * Second))) :=
  have h := runCalls_last_call idleWorld
    [(Call.powerOff, envAt (5 * Second) WriteOutcome.ok RemoveOutcome.ok)] Call.powerOn
    (envAt (7 * Second) WriteOutcome.ok RemoveOutcome.ok)
    (envAt (7 * Second) WriteOutcome.ok RemoveOutcome.ok)
    (envAt (9 * Second) WriteOutcome.ok RemoveOutcome.ok) (fun _ => rfl)
  ⟨h.1, (h.2.1 rfl rfl).2⟩

/-! ## C3: PowerOn when the lock file cannot be written -/

/-- C3, as stated, fails: on a running pump a `PowerOn` whose lock-file write fails
returns the error and `IsOn` is still true: the pin is not rolled back. -/
theorem PowerOn_failure_keeps_pin_high :
    (PowerOn (runningWorld "100".toList File.absent)
      (envAt (200 * Second) (WriteOutcome.openFailed (Err.other 30)) RemoveOutcome.ok)).2
      = some (Err.other 30) ∧
    IsOn (PowerOn (runningWorld "100".toList File.absent)
      (envAt (200 * Second) (WriteOutcome.openFailed (Err.other 30)) RemoveOutcome.ok)).1
      = true := by
  decide

/-- C3, amended: when the lock-file write inside `PowerOn` fails with error `e`,
`PowerOn` returns `e`, the level of the pin is what it was before the call (LOW stays
LOW, HIGH stays HIGH), and the log is unchanged. -/
theorem PowerOn_write_failure (p : World) (env : Env) (e : Err)
    (hfail : env.writeLock = WriteOutcome.openFailed e ∨
      ∃ n, env.writeLock = WriteOutcome.writeFailed n e) :
    (PowerOn p env).2 = some e ∧ (PowerOn p env).1.Pin.Read = p.Pin.Read ∧
    IsOn (PowerOn p env).1 = IsOn p ∧ (PowerOn p env).1.log = p.log := by
  rcases hfail with h | ⟨n, h⟩
  · simp [PowerOn_eq_openFailed p env e h, IsOn, RpioPin.Read]
  · simp [PowerOn_eq_writeFailed p env n e h, IsOn, RpioPin.Read]

/-- Witness of C3 (amended): a pump at rest whose lock-file write fails after the file
was created. -/
theorem PowerOn_write_failure_witness :
    (PowerOn idleWorld
      (envAt (200 * Second) (WriteOutcome.writeFailed 0 (Err.other 28)) RemoveOutcome.ok)).2
      = some (Err.other 28) ∧
    IsOn (PowerOn idleWorld
      (envAt (200 * Second) (WriteOutcome.writeFailed 0 (Err.other 28)) RemoveOutcome.ok)).1
      = IsOn idleWorld :=
  have h := PowerOn_write_failure idleWorld
    (envAt (200 * Second) (WriteOutcome.writeFailed 0 (Err.other 28)) RemoveOutcome.ok)
    (Err.other 28) (Or.inr ⟨0, rfl⟩)
  ⟨h.1, h.2.2.1⟩


/-! ## C4: the watchdog -/

theorem tickEvents_succ (t0 : Int) (os : Nat → Env) (n : Nat) :
    tickEvents t0 os (n + 1) = tickEvents t0 os n ++ [Event.tick (tickEnv t0 os n)] := by
  simp [tickEvents, List.range_succ]

theorem runEvents_tickEvents_succ (m : Int) (st : World × Bool) (t0 : Int) (os : Nat → Env)
    (n : Nat) :
    runEvents m st (tickEvents t0 os (n + 1))
      = stepEvent m (runEvents m st (tickEvents t0 os n)) (Event.tick (tickEnv t0 os n)) := by
  simp [runEvents, tickEvents_succ, List.foldl_append]

theorem stepEvent_tick_low (m : Int) (p : World) (env : Env) (h : p.Pin.level = Level.Low) :
    stepEvent m (p, true) (Event.tick env) = (p, true) := by
  simp [stepEvent, watchdogTick, IsOn, RpioPin.Read, h]

theorem stepEvent_tick_high (m : Int) (p : World) (env : Env) (T : Int)
    (h : p.Pin.level = Level.High) (hl : p.pumpLockFile = File.data (formatInt T))
    (hlo : minInt64 ≤ T) (hhi : T + unixToInternal ≤ maxInt64) :
    stepEvent m (p, true) (Event.tick env)
      = if timeSub env.now (T * Second) > m then ((PowerOff p env).1, true) else (p, true) := by
  have hparse : ParseInt (formatInt T) = Res.ok T := by
    apply ParseInt_formatInt T hlo
    simp only [unixToInternal, maxInt64] at hhi ⊢
    omega
  have hd := PowerOnDuration_parsed p env (formatInt T) T hl hparse
  rw [timeUnix_eq T hlo hhi] at hd
  by_cases hgt : timeSub env.now (T * Second) > m
  · simp [stepEvent, watchdogTick, IsOn, RpioPin.Read, h, hd, hgt]
  · simp [stepEvent, watchdogTick, IsOn, RpioPin.Read, h, hd, hgt]

theorem ticks_invariant (m : Int) (p0 : World) (T t0 : Int) (os : Nat → Env)
    (hm0 : 0 ≤ m) (hm1 : m < maxDuration)
    (hpin : p0.Pin.level = Level.High) (hl : p0.pumpLockFile = File.data (formatInt T))
    (hlo : minInt64 ≤ T) (hhi : T + unixToInternal ≤ maxInt64) (n : Nat) :
    (runEvents m (p0, true) (tickEvents t0 os n)).2 = true ∧
    (((runEvents m (p0, true) (tickEvents t0 os n)).1.Pin.level = Level.High ∧
        (runEvents m (p0, true) (tickEvents t0 os n)).1.pumpLockFile = File.data (formatInt T) ∧
        ∀ k : Nat, k < n → t0 + (k : Int) * pollInterval - T * Second ≤ m) ∨
      ((runEvents m (p0, true) (tickEvents t0 os n)).1.Pin.level = Level.Low ∧
        ((∀ k, (os k).removeLock = RemoveOutcome.ok) →
          (runEvents m (p0, true) (tickEvents t0 os n)).1.pumpLockFile = File.absent))) := by
  induction n with
  | zero =>
    refine ⟨by simp [runEvents, tickEvents], Or.inl ⟨by simpa [runEvents, tickEvents] using hpin,
      by simpa [runEvents, tickEvents] using hl, ?_⟩⟩
    intro k hk
    omega
  | succ n ih =>
    rw [runEvents_tickEvents_succ]
    generalize runEvents m (p0, true) (tickEvents t0 os n) = st at ih
    obtain ⟨q, alive⟩ := st
    obtain ⟨halive, hcase⟩ := ih
    simp only at halive hcase
    subst halive
    rcases hcase with ⟨hq, hql, hbound⟩ | ⟨hq, hql⟩
    · rw [stepEvent_tick_high m q _ T hq hql hlo hhi]
      by_cases hgt : timeSub (tickEnv t0 os n).now (T * Second) > m
      · rw [if_pos hgt]
        refine ⟨rfl, Or.inr ⟨by simp [PowerOff_eq, AddLog], ?_⟩⟩
        intro hok
        simp [PowerOff_eq, AddLog, tickEnv, hok n, removeFile_ok]
      · rw [if_neg hgt]
        refine ⟨rfl, Or.inl ⟨hq, hql, ?_⟩⟩
        intro k hk
        rcases Nat.lt_succ_iff_lt_or_eq.mp hk with hk | hk
        · exact hbound k hk
        · subst hk
          have := le_of_timeSub_le _ _ m hm0 hm1 (not_lt.mp hgt)
          simpa [tickEnv] using this
    · rw [stepEvent_tick_low m q _ hq]
      exact ⟨rfl, Or.inr ⟨hq, hql⟩⟩

/-- C4, as stated, fails: with a maximum of 20 s, `PowerOn` succeeds at second 0, the
watchdog ticks at seconds 10, 20 and 30, no `PowerOff` is called and one more `PowerOn`
is called at second 15. At second 30, that is `T0` plus the maximum plus one poll
interval, the pin is still HIGH and the lock file holds second 15. -/
theorem watchdog_deferred_by_later_PowerOn :
    (PowerOn idleWorld (envAt 0 WriteOutcome.ok RemoveOutcome.ok)).2 = none ∧
    IsOn (runEvents (20 * Second)
      ((PowerOn idleWorld (envAt 0 WriteOutcome.ok RemoveOutcome.ok)).1, true)
      [Event.tick (envAt (10 * Second) WriteOutcome.ok RemoveOutcome.ok),
       Event.powerOn (envAt (15 * Second) WriteOutcome.ok RemoveOutcome.ok),
       Event.tick (envAt (20 * Second) WriteOutcome.ok RemoveOutcome.ok),
       Event.tick (envAt (30 * Second) WriteOutcome.ok RemoveOutcome.ok)]).1 = true ∧
    (runEvents (20 * Second)
      ((PowerOn idleWorld (envAt 0 WriteOutcome.ok RemoveOutcome.ok)).1, true)
      [Event.tick (envAt (10 * Second) WriteOutcome.ok RemoveOutcome.ok),
       Event.powerOn (envAt (15 * Second) WriteOutcome.ok RemoveOutcome.ok),
       Event.tick (envAt (20 * Second) WriteOutcome.ok RemoveOutcome.ok),
       Event.tick (envAt (30 * Second) WriteOutcome.ok RemoveOutcome.ok)]).1.pumpLockFile
      = File.data "15".toList := by
  decide

/-- C4, amended: let `PowerOn` succeed at time `T0` (the clock of `envOn`), let the
watchdog tick every 10 s, its first tick no later than `T0 + 10 s`, and let no client
call follow (neither `PowerOff` nor `PowerOn`). For a maximum `m` with
`0 <= m < maxDuration`, at every instant `t >= T0 + m + 10 s` the ticks fired so far
have left the pin LOW, the process has not panicked, and the lock file is gone when the
removes succeed. -/
theorem watchdog_cutoff (m : Int) (p : World) (envOn : Env) (t0 t : Int) (os : Nat → Env)
    (hw : envOn.writeLock = WriteOutcome.ok) (hclock : validClock envOn.now)
    (hm0 : 0 ≤ m) (hm1 : m < maxDuration)
    (hfirst : t0 ≤ envOn.now + pollInterval)
    (ht : envOn.now + m + pollInterval ≤ t) :
    IsOn (runEvents m ((PowerOn p envOn).1, true) (tickEvents t0 os (ticksBy t0 t))).1 = false ∧
    (runEvents m ((PowerOn p envOn).1, true) (tickEvents t0 os (ticksBy t0 t))).2 = true ∧
    ((∀ k, (os k).removeLock = RemoveOutcome.ok) →
      (runEvents m ((PowerOn p envOn).1, true)
        (tickEvents t0 os (ticksBy t0 t))).1.pumpLockFile = File.absent) := by
  have hinv := ticks_invariant m (PowerOn p envOn).1 (unixSeconds envOn.now) t0 os hm0 hm1
    (by simp [PowerOn_eq_ok p envOn hw, AddLog]) (by simp [PowerOn_eq_ok p envOn hw, AddLog])
    hclock.1 hclock.2 (ticksBy t0 t)
  obtain ⟨halive, hcase⟩ := hinv
  rcases hcase with ⟨_, _, hbound⟩ | ⟨hlow, hfile⟩
  · exfalso
    have hsec := unixSeconds_mul_le envOn.now
    have hn : ticksBy t0 t = ((t - t0) / pollInterval).toNat + 1 := by
      simp only [ticksBy, pollInterval, Second] at hfirst ht ⊢
      rw [if_neg (by omega)]
    have hb := hbound ((t - t0) / pollInterval).toNat (by omega)
    have hnn : 0 ≤ (t - t0) / pollInterval := by
      simp only [pollInterval, Second] at hfirst ht ⊢
      omega
    rw [Int.toNat_of_nonneg hnn] at hb
    simp only [pollInterval, Second] at hfirst ht hb hsec
    omega
  · exact ⟨by simp [IsOn, RpioPin.Read, hlow], halive, hfile⟩

/-- Witness of C4 (amended): a maximum of 20 s, `PowerOn` at 0.5 s, first tick at 10 s,
the state observed at 30.5 s. -/
theorem watchdog_cutoff_witness :
    (envAt 500000000 WriteOutcome.ok RemoveOutcome.ok).writeLock = WriteOutcome.ok ∧
    validClock 500000000 ∧
    IsOn (runEvents (20 * Second)
      ((PowerOn idleWorld (envAt 500000000 WriteOutcome.ok RemoveOutcome.ok)).1, true)
      (tickEvents (10 * Second) (fun _ => envAt 0 WriteOutcome.ok RemoveOutcome.ok)
        (ticksBy (10 * Second) 30500000000))).1 = false :=
  ⟨rfl, by decide,
    (watchdog_cutoff (20 * Second) idleWorld
      (envAt 500000000 WriteOutcome.ok RemoveOutcome.ok) (10 * Second) 30500000000
      (fun _ => envAt 0 WriteOutcome.ok RemoveOutcome.ok) rfl (by decide) (by decide)
      (by decide) (by decide) (by decide)).1⟩


/-! ## C6: PowerOnDuration on a lock file that cannot be read or parsed -/

theorem PowerOnDuration_unreadable (p : World) (env : Env) (e : Err)
    (hl : p.pumpLockFile = File.unreadable e) :
    PowerOnDuration p env = ((DisablePowerOnCron (PowerOff p env).1 env).1, Outcome.fatal e) := by
  simp [PowerOnDuration, hl]

theorem PowerOnDuration_unparsable (p : World) (env : Env) (content : List Char) (e : Err)
    (hl : p.pumpLockFile = File.data content) (hp : ParseInt content = Res.err e) :
    PowerOnDuration p env = ((PowerOff p env).1, Outcome.fatal e) := by
  simp [PowerOnDuration, hl, hp]

/-- On a lock file whose content does not parse, `PowerOnDuration` leaves the cron
marker as it found it: this branch does not call `DisablePowerOnCron`, which the
read-error branch calls. -/
theorem PowerOnDuration_unparsable_keeps_marker (p : World) (env : Env) (content : List Char)
    (e : Err) (hl : p.pumpLockFile = File.data content) (hp : ParseInt content = Res.err e) :
    (PowerOnDuration p env).1.pumpOnCrondFile = p.pumpOnCrondFile := by
  simp [PowerOnDuration_unparsable p env content e hl hp, PowerOff_eq, AddLog]

/-- C6, as stated, fails: with the pin HIGH, an unreadable lock file and an `os.Remove`
that fails, `PowerOnDuration` panics and leaves the lock file where it was. -/
theorem PowerOnDuration_failed_remove_keeps_lock :
    (PowerOnDuration
      { Pin := { mode := Mode.Output, level := Level.High }, listen := ":8111", log := [],
        pumpLockFile := File.unreadable (Err.other 5), pumpOnCrondFile := File.absent }
      (envAt (200 * Second) WriteOutcome.ok (RemoveOutcome.failed (Err.other 13)))).2
      = Outcome.fatal (Err.other 5) ∧
    (PowerOnDuration
      { Pin := { mode := Mode.Output, level := Level.High }, listen := ":8111", log := [],
        pumpLockFile := File.unreadable (Err.other 5), pumpOnCrondFile := File.absent }
      (envAt (200 * Second) WriteOutcome.ok
        (RemoveOutcome.failed (Err.other 13)))).1.pumpLockFile
      = File.unreadable (Err.other 5) := by
  decide

/-- C6, amended: when the lock file exists but cannot be read, or its content does not
parse as a decimal 64-bit integer, `PowerOnDuration` returns no duration: it panics,
and the state it leaves has the pin LOW, has no lock file when the remove of the lock
file succeeds, and in the read-error case has no cron marker when there was none or its
remove succeeds. -/
theorem PowerOnDuration_fatal (p : World) (env : Env)
    (hlock : (∃ e, p.pumpLockFile = File.unreadable e) ∨
      ∃ content e, p.pumpLockFile = File.data content ∧ ParseInt content = Res.err e) :
    (∃ e, (PowerOnDuration p env).2 = Outcome.fatal e) ∧
    IsOn (PowerOnDuration p env).1 = false ∧
    (env.removeLock = RemoveOutcome.ok →
      (PowerOnDuration p env).1.pumpLockFile = File.absent) ∧
    ((∃ e, p.pumpLockFile = File.unreadable e) →
      p.pumpOnCrondFile = File.absent ∨ env.removeCron = RemoveOutcome.ok →
      (PowerOnDuration p env).1.pumpOnCrondFile = File.absent) := by
  rcases hlock with ⟨e, hl⟩ | ⟨content, e, hl, hp⟩
  · rw [PowerOnDuration_unreadable p env e hl]
    refine ⟨⟨e, rfl⟩, by simp [DisablePowerOnCron, PowerOff_eq, AddLog, IsOn, RpioPin.Read], ?_, ?_⟩
    · intro hr
      simp [DisablePowerOnCron, PowerOff_eq, AddLog, hr, removeFile_ok]
    · intro _ hc
      rcases hc with hc | hc
      · simp [DisablePowerOnCron, PowerOff_eq, AddLog, hc, removeFile_absent]
      · simp [DisablePowerOnCron, PowerOff_eq, AddLog, hc, removeFile_ok]
  · rw [PowerOnDuration_unparsable p env content e hl hp]
    refine ⟨⟨e, rfl⟩, by simp [PowerOff_eq, AddLog, IsOn, RpioPin.Read], ?_, ?_⟩
    · intro hr
      simp [PowerOff_eq, AddLog, hr, removeFile_ok]
    · rintro ⟨e2, he2⟩
      rw [hl] at he2
      exact absurd he2 (by simp)

/-- Witness of C6 (amended): a running pump whose lock file holds `abc`. -/
theorem PowerOnDuration_fatal_witness :
    ParseInt "abc".toList = Res.err Err.malformed ∧
    IsOn (PowerOnDuration (runningWorld "abc".toList File.absent)
      (envAt (200 * Second) WriteOutcome.ok RemoveOutcome.ok)).1 = false ∧
    (PowerOnDuration (runningWorld "abc".toList File.absent)
      (envAt (200 * Second) WriteOutcome.ok RemoveOutcome.ok)).1.pumpLockFile = File.absent :=
  have h := PowerOnDuration_fatal (runningWorld "abc".toList File.absent)
    (envAt (200 * Second) WriteOutcome.ok RemoveOutcome.ok)
    (Or.inr ⟨"abc".toList, Err.malformed, rfl, by decide⟩)
  ⟨by decide, h.2.1, h.2.2.1 rfl⟩

/-! ## C5: reconciliation at process start -/

/-- C5, as stated, fails: the pin reads HIGH at start, the lock file holds `abc` and
its remove fails; after the reconciliation pass the pin is LOW but the lock file is
still there. -/
theorem newPump_failed_remove_keeps_lock :
    IsOn (newPump { mode := Mode.Input, level := Level.High } ":8111"
      (File.data "abc".toList) File.absent
      (envAt (200 * Second) WriteOutcome.ok (RemoveOutcome.failed (Err.other 13)))).1 = false ∧
    (newPump { mode := Mode.Input, level := Level.High } ":8111"
      (File.data "abc".toList) File.absent
      (envAt (200 * Second) WriteOutcome.ok
        (RemoveOutcome.failed (Err.other 13)))).1.pumpLockFile
      = File.data "abc".toList := by
  decide

/-- C5, amended: when at process start the pin reads HIGH and the lock file is absent,
unreadable, unparsable, or holds a timestamp for which `PowerOnDuration` is not
positive, the reconciliation pass of `newPump` ends (by return or by panic) with the
pin LOW, and with no lock file when there was none or its remove succeeds. -/
theorem newPump_reconciles (pin : RpioPin) (httpPort : String) (lock cron : File) (env : Env)
    (hpin : pin.Read = Level.High)
    (hlock : lock = File.absent ∨ (∃ e, lock = File.unreadable e) ∨
      ∃ content, lock = File.data content ∧
        ((∃ e, ParseInt content = Res.err e) ∨
          ∃ ts, ParseInt content = Res.ok ts ∧ timeSub env.now (timeUnix ts) ≤ 0)) :
    IsOn (newPump pin httpPort lock cron env).1 = false ∧
    (lock = File.absent ∨ env.removeLock = RemoveOutcome.ok →
      (newPump pin httpPort lock cron env).1.pumpLockFile = File.absent) := by
  have hon : pin.level = Level.High := hpin
  have hoff : ∀ q : World, IsOn (PowerOff q env).1 = false := by
    intro q
    simp [PowerOff_eq, AddLog, IsOn, RpioPin.Read]
  have hgone : ∀ q : World, q.pumpLockFile = File.absent ∨ env.removeLock = RemoveOutcome.ok →
      (PowerOff q env).1.pumpLockFile = File.absent := by
    intro q h
    rcases h with h | h
    · simp [PowerOff_eq, AddLog, h, removeFile_absent]
    · simp [PowerOff_eq, AddLog, h, removeFile_ok]
  have hfatal := PowerOnDuration_fatal (World.mk pin httpPort [] lock cron) env
  rcases hlock with hl | ⟨e, hl⟩ | ⟨content, hl, ⟨e, hp⟩ | ⟨ts, hp, hd⟩⟩
  · have hnew : newPump pin httpPort lock cron env
        = ((PowerOff (World.mk pin httpPort [] lock cron) env).1, Outcome.ret ()) := by
      simp [newPump, IsOn, RpioPin.Read, hon, PowerOnDuration, hl]
    rw [hnew]
    exact ⟨hoff _, fun _ => hgone _ (Or.inl hl)⟩
  · have hu := PowerOnDuration_unreadable (World.mk pin httpPort [] lock cron) env e hl
    have hnew : (newPump pin httpPort lock cron env).1
        = (PowerOnDuration (World.mk pin httpPort [] lock cron) env).1 := by
      simp [newPump, IsOn, RpioPin.Read, hon, hu]
    have hf := hfatal (Or.inl ⟨e, hl⟩)
    rw [hnew]
    refine ⟨hf.2.1, ?_⟩
    rintro (h | h)
    · rw [hl] at h
      exact absurd h (by simp)
    · exact hf.2.2.1 h
  · have hu := PowerOnDuration_unparsable (World.mk pin httpPort [] lock cron) env content e
      hl hp
    have hnew : (newPump pin httpPort lock cron env).1
        = (PowerOnDuration (World.mk pin httpPort [] lock cron) env).1 := by
      simp [newPump, IsOn, RpioPin.Read, hon, hu]
    have hf := hfatal (Or.inr ⟨content, e, hl, hp⟩)
    rw [hnew]
    refine ⟨hf.2.1, ?_⟩
    rintro (h | h)
    · rw [hl] at h
      exact absurd h (by simp)
    · exact hf.2.2.1 h
  · have hu := PowerOnDuration_parsed (World.mk pin httpPort [] lock cron) env content ts hl hp
    have hnew : newPump pin httpPort lock cron env
        = ((PowerOff (World.mk pin httpPort [] lock cron) env).1, Outcome.ret ()) := by
      simp [newPump, IsOn, RpioPin.Read, hon, hu, hd]
    rw [hnew]
    refine ⟨hoff _, ?_⟩
    rintro (h | h)
    · rw [hl] at h
      exact absurd h (by simp)
    · exact hgone _ (Or.inr h)

/-- Witness of C5 (amended): the pin reads HIGH at second 200 and the lock file holds
second 300. -/
theorem newPump_reconciles_witness :
    ParseInt "300".toList = Res.ok 300 ∧ timeSub (200 * Second) (timeUnix 300) ≤ 0 ∧
    IsOn (newPump { mode := Mode.Input, level := Level.High } ":8111"
      (File.data "300".toList) File.absent
      (envAt (200 * Second) WriteOutcome.ok RemoveOutcome.ok)).1 = false ∧
    (newPump { mode := Mode.Input, level := Level.High } ":8111"
      (File.data "300".toList) File.absent
      (envAt (200 * Second) WriteOutcome.ok RemoveOutcome.ok)).1.pumpLockFile = File.absent :=
  have h := newPump_reconciles { mode := Mode.Input, level := Level.High } ":8111"
    (File.data "300".toList) File.absent
    (envAt (200 * Second) WriteOutcome.ok RemoveOutcome.ok) rfl
    (Or.inr (Or.inr ⟨"300".toList, rfl, Or.inr ⟨300, by decide, by decide⟩⟩))
  ⟨by decide, by decide, h.1, h.2 (Or.inr rfl)⟩


/-! ## C7: the bound of the log -/

theorem AddLog_length (p : World) (txt : String) (now : Int) :
    (AddLog p txt now).log.length
      = if p.log.length > 100 then p.log.length else p.log.length + 1 := by
  simp only [AddLog]
  split_ifs with h
  · simp only [List.length_append, List.length_drop, List.length_singleton]
    omega
  · simp

/-- What the code keeps: the log never holds more than 101 entries. -/
theorem addLogs_length_le (entries : List (String × Int)) :
    ∀ p : World, p.log.length ≤ 101 → (addLogs p entries).log.length ≤ 101 := by
  induction entries with
  | nil => intro p h; simpa [addLogs] using h
  | cons e es ih =>
    intro p h
    have hstep : addLogs p (e :: es) = addLogs (AddLog p e.1 e.2) es := by simp [addLogs]
    rw [hstep]
    apply ih
    rw [AddLog_length]
    split_ifs <;> omega

set_option maxRecDepth 100000 in
/-- C7 on the code: after 101 appends to an empty log the log holds 101 entries, the
first-appended one still at its head and the last-appended one at its end. -/
theorem addLogs_101_keeps_first :
    (addLogs idleWorld ((List.range 101).map (fun k => ("pump start", (k : Int))))).log.length
      = 101 ∧
    (addLogs idleWorld ((List.range 101).map (fun k => ("pump start", (k : Int))))).log.head?
      = some { txt := "pump start", time := 0 } ∧
    (addLogs idleWorld ((List.range 101).map (fun k => ("pump start", (k : Int))))).log.getLast?
      = some { txt := "pump start", time := 100 } := by
  decide

/-! ## C8: EnablePowerOnCron -/

/-- C8: when the marker file exists, `EnablePowerOnCron` returns nil and changes
nothing; when it is absent and the write succeeds, the call returns nil and writes the
cron line, and a second call (with any interval string and any outcomes) returns nil
and leaves the state of the first call. -/
theorem EnablePowerOnCron_idempotent (p : World) (intervals again : String) (env env2 : Env) :
    (p.pumpOnCrondFile ≠ File.absent → EnablePowerOnCron p intervals env = (p, none)) ∧
    (p.pumpOnCrondFile = File.absent → env.writeCron = WriteOutcome.ok →
      (EnablePowerOnCron p intervals env).2 = none ∧
      (EnablePowerOnCron p intervals env).1
        = { p with pumpOnCrondFile := File.data (pumpOnCrond intervals p.listen) } ∧
      EnablePowerOnCron (EnablePowerOnCron p intervals env).1 again env2
        = ((EnablePowerOnCron p intervals env).1, none)) := by
  constructor
  · intro h
    cases hc : p.pumpOnCrondFile with
    | absent => exact absurd hc h
    | unreadable e => simp [EnablePowerOnCron, statIsNotExist, hc]
    | data bytes => simp [EnablePowerOnCron, statIsNotExist, hc]
  · intro ha hw
    simp [EnablePowerOnCron, statIsNotExist, ha, hw, writeFile]

/-- Witness of C8: enabling twice on a controller at rest. -/
theorem EnablePowerOnCron_idempotent_witness :
    idleWorld.pumpOnCrondFile = File.absent ∧
    EnablePowerOnCron
      (EnablePowerOnCron idleWorld "0 0,6,12,18"
        (envAt 0 WriteOutcome.ok RemoveOutcome.ok)).1 "0 0,6,12,18"
      (envAt 0 WriteOutcome.ok RemoveOutcome.ok)
      = ((EnablePowerOnCron idleWorld "0 0,6,12,18"
          (envAt 0 WriteOutcome.ok RemoveOutcome.ok)).1, none) :=
  ⟨rfl, ((EnablePowerOnCron_idempotent idleWorld "0 0,6,12,18" "0 0,6,12,18"
    (envAt 0 WriteOutcome.ok RemoveOutcome.ok)
    (envAt 0 WriteOutcome.ok RemoveOutcome.ok)).2 rfl rfl).2.2⟩

/-! ## C9: DisablePowerOnCron against PowerOff -/

/-- C9: without a marker file `DisablePowerOnCron` returns a non-nil error (the
not-exist error of `os.Remove`) and changes nothing, while `PowerOff` without a lock
file returns nil; with a marker file whose remove succeeds `DisablePowerOnCron` returns
nil and the marker is gone. -/
theorem DisablePowerOnCron_absent_is_error (p : World) (env : Env) :
    (p.pumpOnCrondFile = File.absent →
      (DisablePowerOnCron p env).2 = some Err.notExist ∧ (DisablePowerOnCron p env).1 = p) ∧
    (p.pumpLockFile = File.absent →
      (PowerOff p env).2 = none ∧ (PowerOff p env).1.pumpLockFile = File.absent) ∧
    (p.pumpOnCrondFile ≠ File.absent → env.removeCron = RemoveOutcome.ok →
      (DisablePowerOnCron p env).2 = none ∧
      (DisablePowerOnCron p env).1.pumpOnCrondFile = File.absent) := by
  refine ⟨?_, ?_, ?_⟩
  · intro h
    obtain ⟨pin, listen, log, lock, cron⟩ := p
    simp only at h
    subst h
    simp [DisablePowerOnCron, removeFile]
  · intro h
    simp [PowerOff_eq, AddLog, h, removeFile_absent]
  · intro h hr
    cases hc : p.pumpOnCrondFile with
    | absent => exact absurd hc h
    | unreadable e => simp [DisablePowerOnCron, removeFile, hc, hr]
    | data bytes => simp [DisablePowerOnCron, removeFile, hc, hr]

/-- Witness of C9: a controller at rest, then one whose marker file exists. -/
theorem DisablePowerOnCron_absent_is_error_witness :
    (DisablePowerOnCron idleWorld (envAt 0 WriteOutcome.ok RemoveOutcome.ok)).2
      = some Err.notExist ∧
    (PowerOff idleWorld (envAt 0 WriteOutcome.ok RemoveOutcome.ok)).2 = none ∧
    (DisablePowerOnCron (runningWorld "100".toList (File.data "x".toList))
      (envAt 0 WriteOutcome.ok RemoveOutcome.ok)).1.pumpOnCrondFile = File.absent :=
  ⟨((DisablePowerOnCron_absent_is_error idleWorld
      (envAt 0 WriteOutcome.ok RemoveOutcome.ok)).1 rfl).1,
   ((DisablePowerOnCron_absent_is_error idleWorld
      (envAt 0 WriteOutcome.ok RemoveOutcome.ok)).2.1 rfl).1,
   ((DisablePowerOnCron_absent_is_error (runningWorld "100".toList (File.data "x".toList))
      (envAt 0 WriteOutcome.ok RemoveOutcome.ok)).2.2 (by decide) rfl).2⟩

/-! ## C10: the lock record round trip -/

/-- C10: for every `int64` timestamp `ts` the text written by `SaveLockFile` parses
back to `ts`, and `PowerOnDuration` on it returns `time.Now().Sub(time.Unix(ts, 0))`.
After a `PowerOn` whose write succeeds at second `T0` (of a clock reading that
`time.Time` can hold), `PowerOnDuration` at clock reading `now` leaves the state as it
is and returns `now - T0` (the `Sub` of package `time`, which is the exact difference
whenever that fits a `time.Duration`), never panics, and the result is not negative
when `now` is not before `T0`. -/
theorem lock_round_trip (ts : Int) (p : World) (envOn env : Env)
    (hlo : minInt64 ≤ ts) (hhi : ts ≤ maxInt64)
    (hw : envOn.writeLock = WriteOutcome.ok) (hclock : validClock envOn.now) :
    (SaveLockFile p ts WriteOutcome.ok).1.pumpLockFile = File.data (formatInt ts) ∧
    ParseInt (formatInt ts) = Res.ok ts ∧
    (PowerOnDuration (SaveLockFile p ts WriteOutcome.ok).1 env).2
      = Outcome.ret (timeSub env.now (timeUnix ts)) ∧
    PowerOnDuration (PowerOn p envOn).1 env
      = ((PowerOn p envOn).1,
          Outcome.ret (timeSub env.now (unixSeconds envOn.now * Second))) ∧
    (minDuration ≤ env.now - unixSeconds envOn.now * Second ∧
        env.now - unixSeconds envOn.now * Second ≤ maxDuration →
      (PowerOnDuration (PowerOn p envOn).1 env).2
        = Outcome.ret (env.now - unixSeconds envOn.now * Second)) ∧
    (unixSeconds envOn.now * Second ≤ env.now →
      ∃ d, (PowerOnDuration (PowerOn p envOn).1 env).2 = Outcome.ret d ∧ 0 ≤ d) := by
  have hparse := ParseInt_formatInt ts hlo hhi
  have hsave : (SaveLockFile p ts WriteOutcome.ok).1.pumpLockFile = File.data (formatInt ts) := by
    simp [SaveLockFile, writeFile]
  have hT : ParseInt (formatInt (unixSeconds envOn.now)) = Res.ok (unixSeconds envOn.now) := by
    apply ParseInt_formatInt _ hclock.1
    have := hclock.2
    simp only [unixToInternal, maxInt64] at this ⊢
    omega
  have hdur : PowerOnDuration (PowerOn p envOn).1 env
      = ((PowerOn p envOn).1,
          Outcome.ret (timeSub env.now (unixSeconds envOn.now * Second))) := by
    rw [PowerOnDuration_parsed (PowerOn p envOn).1 env _ _
      (by simp [PowerOn_eq_ok p envOn hw, AddLog]) hT, timeUnix_eq _ hclock.1 hclock.2]
  refine ⟨hsave, hparse, ?_, hdur, ?_, ?_⟩
  · rw [PowerOnDuration_parsed _ env _ _ hsave hparse]
  · rintro ⟨h1, h2⟩
    rw [hdur, timeSub_eq _ _ h1 h2]
  · intro h
    exact ⟨_, by rw [hdur], timeSub_nonneg _ _ h⟩

/-- Witness of C10: `PowerOn` at 1762275600.5 s, `PowerOnDuration` 100 s after that
second. -/
theorem lock_round_trip_witness :
    minInt64 ≤ 1762275600 ∧ (1762275600 : Int) ≤ maxInt64 ∧ validClock 1762275600500000000 ∧
    ParseInt (formatInt 1762275600) = Res.ok 1762275600 ∧
    (PowerOnDuration
      (PowerOn idleWorld (envAt 1762275600500000000 WriteOutcome.ok RemoveOutcome.ok)).1
      (envAt 1762275700000000000 WriteOutcome.ok RemoveOutcome.ok)).2
      = Outcome.ret (1762275700000000000
          - unixSeconds (envAt 1762275600500000000 WriteOutcome.ok RemoveOutcome.ok).now
            * Second) :=
  have h := lock_round_trip 1762275600 idleWorld
    (envAt 1762275600500000000 WriteOutcome.ok RemoveOutcome.ok)
    (envAt 1762275700000000000 WriteOutcome.ok RemoveOutcome.ok)
    (by decide) (by decide) rfl (by decide)
  ⟨by decide, by decide, by decide, h.2.1, h.2.2.2.2.1 ⟨by decide, by decide⟩⟩

end PumpSwitch
